import Mathlib

/-!
Verification of the core text-constraint, dialogue-orchestration, speech-artifact
naming and timeline-assembly logic of the `ai-avatar-stream-mvp` repository.

Texts are modelled as `List Char` (Python `str` values over the ASCII/Cyrillic
repertoire this program manipulates); external capabilities (the language-model
completion service and the text-to-speech service) are modelled as oracle
function parameters; environment lookup of the credential is modelled as an
`Option String` parameter.
-/

namespace AvatarStream

/-! ## Python string primitives (character level) -/

/-- Models Python `str.lower` for the character repertoire this program uses:
ASCII letters `A`-`Z` and the Cyrillic letters `А`-`Я` (U+0410..U+042F) plus
`Ё` (U+0401).  Other characters are left unchanged. -/
def pyLowerChar (c : Char) : Char :=
  if 0x41 ≤ c.toNat && c.toNat ≤ 0x5A then Char.ofNat (c.toNat + 0x20)
  else if 0x410 ≤ c.toNat && c.toNat ≤ 0x42F then Char.ofNat (c.toNat + 0x20)
  else if c.toNat == 0x401 then Char.ofNat 0x451
  else c

/-- Models the regex `[A-Za-z]` (`LATIN_RE` in `dialog_engine.py`) on one char. -/
def isLatinChar (c : Char) : Bool :=
  ('A' ≤ c && c ≤ 'Z') || ('a' ≤ c && c ≤ 'z')

/-- Models `LATIN_RE.search(text) is not None`. -/
def hasLatin (l : List Char) : Bool :=
  l.any isLatinChar

/-- Whitespace predicate used by Python `strip`/`lstrip` (the program only ever
deals in ASCII whitespace). -/
def wsp (c : Char) : Bool :=
  c.isWhitespace

/-- Models Python `str.lstrip()`. -/
def pyLStrip (l : List Char) : List Char :=
  l.dropWhile wsp

/-- Models Python `str.rstrip()` (no call site uses bare `rstrip`, but
`strip` is left-strip followed by right-strip). -/
def pyRStrip (l : List Char) : List Char :=
  l.rdropWhile wsp

/-- Models Python `str.strip()`. -/
def pyStrip (l : List Char) : List Char :=
  pyRStrip (pyLStrip l)

/-! ## dialog_engine.py: constants -/

/-- `IRINA_NAME` in `dialog_engine.py`. -/
def IRINA_NAME : String := "Д-р Ирина (учёный)"

/-- The skeptic agent's name (`agent2.name` in `run_dialog`). -/
def ALEXEY_NAME : String := "Д-р Алексей (скептик)"

/-- `IRINA_FIRST_PHRASE` in `dialog_engine.py`. -/
def IRINA_FIRST_PHRASE : String := "Давай начнём с самого простого."

/-- `IRINA_PREFACE` in `dialog_engine.py`. -/
def IRINA_PREFACE : String := "Добрый день. Да, спасибо."

/-- The preface immediately followed by the mandated opening phrase
(`f"{IRINA_PREFACE} {IRINA_FIRST_PHRASE}"`), the combination the expert's
first line is supposed to begin with. -/
def irinaCombo : List Char :=
  IRINA_PREFACE.data ++ ' ' :: IRINA_FIRST_PHRASE.data

/-- The error message raised on a missing `OPENAI_API_KEY` (the identical
message appears verbatim in `dialog_engine.generate_reply` and in
`tts_engine.synthesize_speech`). -/
def NO_KEY_MSG : String :=
  "Не найден OPENAI_API_KEY. Создайте файл .env в корне проекта и добавьте строку OPENAI_API_KEY=ваш_ключ (или задайте переменную окружения OPENAI_API_KEY)."

/-- Models Python truthiness of `not os.getenv("OPENAI_API_KEY")`:
the credential is missing when the variable is unset or empty. -/
def envKeyMissing (key : Option String) : Bool :=
  match key with
  | none => true
  | some s => s.isEmpty

/-! ## dialog_engine.py: the speaker-label regex

`SPEAKER_PREFIX_RE = ^\s*(?:Д-?р\s*)?(?:Ирина|Алексей)\s*\((?:учёный|скептик)\)\s*:\s*`
(IGNORECASE).  The pattern is deterministic on its alternations (the branches
start with distinct letters and every `\s*` is followed by a non-space literal),
so a committed-choice matcher is semantically equal to the backtracking regex.
`speakerLabelRemainder l = some r` means the regex matches a prefix of `l`
and `r` is what `re.sub` leaves behind. -/

/-- Case-insensitive character match (regex `IGNORECASE` semantics on the
program's repertoire). -/
def ciMatch (a b : Char) : Bool :=
  pyLowerChar a == pyLowerChar b

/-- Matches a literal pattern case-insensitively, returning the remainder. -/
def matchLitCI : List Char → List Char → Option (List Char)
  | [], l => some l
  | _ :: _, [] => none
  | p :: ps, c :: cs => if ciMatch p c then matchLitCI ps cs else none

/-- After `Д` (and the optional dash already consumed), match `р` followed by
`\s*`; on failure fall back to `orig`, the input the whole optional group
started at. -/
def matchOptR (orig rest2 : List Char) : List Char :=
  match rest2 with
  | [] => orig
  | c2 :: r2 => if ciMatch c2 'р' then r2.dropWhile wsp else orig

/-- Matches the optional group `(?:Д-?р\s*)?`; always succeeds, consuming the
group when it is present (the letters case-insensitively, the dash optional,
then any whitespace). -/
def matchOptDr (l : List Char) : List Char :=
  match l with
  | [] => []
  | c :: rest =>
    if ciMatch c 'д' then
      matchOptR (c :: rest) (if rest.take 1 = ['-'] then rest.drop 1 else rest)
    else c :: rest

/-- First-of-two alternation on literals. -/
def matchAlt2 (p₁ p₂ : List Char) (l : List Char) : Option (List Char) :=
  match matchLitCI p₁ l with
  | some r => some r
  | none => matchLitCI p₂ l

/-- The full `SPEAKER_PREFIX_RE` match against the start of `l`; `some r`
returns the text after the matched label. -/
def speakerLabelRemainder (l : List Char) : Option (List Char) :=
  match matchAlt2 (("ирина").data) (("алексей").data) (matchOptDr (l.dropWhile wsp)) with
  | none => none
  | some l3 =>
    match matchLitCI (("(").data) (l3.dropWhile wsp) with
    | none => none
    | some l5 =>
      match matchAlt2 (("учёный").data) (("скептик").data) l5 with
      | none => none
      | some l6 =>
        match matchLitCI ((")").data) l6 with
        | none => none
        | some l7 =>
          match matchLitCI ((":").data) (l7.dropWhile wsp) with
          | none => none
          | some l9 => some (l9.dropWhile wsp)

/-! ## dialog_engine.py: the constraint pipeline -/

/-- Models `_strip_leading_speaker_prefix`:
`cleaned = reply.lstrip(); cleaned = SPEAKER_PREFIX_RE.sub("", cleaned).strip()`.
Because the pattern is anchored at `^` (no MULTILINE), `sub` replaces at most
the one leading occurrence. -/
def stripLeadingSpeakerLabel (reply : List Char) : List Char :=
  match speakerLabelRemainder (pyLStrip reply) with
  | some r => pyStrip r
  | none => pyStrip (pyLStrip reply)

/-- Models `_enforce_irina_first_phrase`. -/
def enforceIrinaFirstPhrase (reply : List Char) : List Char :=
  if IRINA_FIRST_PHRASE.data.isPrefixOf (pyLStrip reply) then pyLStrip reply
  else pyStrip (IRINA_FIRST_PHRASE.data ++ ' ' :: pyLStrip reply)

/-- Models `_add_irina_preface_if_first_turn`. -/
def addIrinaPrefaceIfFirstTurn (reply : List Char) : List Char :=
  if !(IRINA_FIRST_PHRASE.data.isPrefixOf (pyLStrip reply)) then pyLStrip reply
  else if irinaCombo.isPrefixOf (pyLStrip reply) then pyLStrip reply
  else pyStrip (IRINA_PREFACE.data ++ ' ' :: pyLStrip reply)

/-! ## dialog_engine.py: agents, chat messages and generation -/

/-- Models the `Agent` dataclass. -/
structure Agent where
  name : String
  system_prompt : String
deriving DecidableEq

/-- One entry of the `messages` list sent to the chat-completion capability. -/
structure ChatMessage where
  role : String
  content : String
deriving DecidableEq

/-- `History = List[Tuple[str, str]]`. -/
abbrev History := List (String × String)

/-- String-level Python `strip`. -/
def pyStripS (s : String) : String :=
  ⟨pyStrip s.data⟩

/-- Models `_history_to_messages`. -/
def historyToMessages (history : History) : List ChatMessage :=
  history.map fun st => ⟨"user", pyStripS (st.1 ++ ": " ++ st.2)⟩

/-- The fixed stylistic-rules block of the system message in `generate_reply`
(the text between `agent.system_prompt` and `topic_line`). -/
def commonRulesBlock : String :=
  "\n\nОбщие правила:\n- Отвечай строго на русском.\n- 2–4 предложения.\n- Научно, но понятно, без сухого академизма.\n- ЖЁСТКИЙ ЗАПРЕТ: никаких английских слов, вставок, транслитерации, латиницы.\n- Не пиши своё имя и должность в начале реплики, говори просто от первого лица.\n- Вопросы не должны занимать весь объём реплики: сначала мысль/позиция, затем (если уместно) 1 прицельный вопрос.\n- Ирина чаще утверждает и объясняет; Алексей чаще задаёт вопросы и сомневается.\n"

/-- Models `topic_line = f"Тема: {effective_topic}." if effective_topic else ""`
(Python truthiness: an empty topic also yields the empty line). -/
def topicLineFor (effective_topic : Option String) : String :=
  match effective_topic with
  | none => ""
  | some t => if t.isEmpty then "" else "Тема: " ++ t ++ "."

/-- The `user_content` for the very first expert turn in `generate_reply`. -/
def firstTurnIrinaUserContent : String :=
  "Сделай ПЕРВУЮ реплику диалога по указанной теме.\nЭто самое начало: до этого никто ничего не говорил.\nРеплика ОБЯЗАТЕЛЬНО начинается ровно с фразы: «" ++ IRINA_FIRST_PHRASE ++ "».\nДальше — спокойное, уверенное введение в тему (2–4 предложения), без ощущения, что спор уже идёт.\nИрина — эксперт: она объясняет и ведёт разговор.\nНе используй английские слова, вставки и латиницу.\nНе перечисляй правила и не используй разметку."

/-- The `user_content` for every other turn in `generate_reply`. -/
def continueUserContent : String :=
  "Продолжи диалог следующей репликой от лица персонажа.\nИрина — эксперт, объясняет и ведёт разговор.\nАлексей — собеседник, который задаёт неудобные, уточняющие вопросы.\nНе используй английские слова, вставки и латиницу.\nНе перечисляй правила и не используй разметку."

/-- The message list sent to the completion capability by `generate_reply`. -/
def buildMessages (agent : Agent) (history : History) (topic : Option String) : List ChatMessage :=
  let is_first_turn := history.isEmpty
  let effective_topic := if is_first_turn then topic else none
  let topic_line := topicLineFor effective_topic
  let user_content :=
    if is_first_turn && (agent.name == IRINA_NAME) then firstTurnIrinaUserContent
    else continueUserContent
  ⟨"system", pyStripS (agent.system_prompt ++ commonRulesBlock ++ topic_line)⟩ ::
    (historyToMessages history ++ [⟨"user", user_content⟩])

/-- The hard-rule block appended to the agent prompt in
`_rewrite_without_latin`'s system message. -/
def rewriteRuleBlock : String :=
  "\n\nЖЁСТКОЕ ПРАВИЛО: в ответе не должно быть НИ ОДНОЙ латинской буквы (A–Z, a–z). Никаких английских слов, вставок, транслитерации. Только кириллица, цифры и знаки."

/-- The user message of `_rewrite_without_latin` up to the quoted text. -/
def rewriteAskBlock : String :=
  "Перепиши текст ниже так, чтобы смысл сохранился, но в нём не было ни одной латинской буквы.\n\nТекст:\n"

/-- The message list sent by `_rewrite_without_latin`. -/
def rewriteMessages (agent : Agent) (text : List Char) : List ChatMessage :=
  [⟨"system", agent.system_prompt ++ rewriteRuleBlock⟩,
   ⟨"user", rewriteAskBlock ++ (⟨text⟩ : String)⟩]

/-- Models `_rewrite_without_latin`.  The completion capability is the oracle
`llm`; the second component counts the rewrite requests issued.  The raw
oracle answer stands for `resp.choices[0].message.content or ""` and is
`strip`ped as in the source. -/
def rewriteWithoutLatin (llm : List ChatMessage → String) (agent : Agent) (text : List Char) :
    List Char × Nat :=
  if hasLatin text then
    (if hasLatin (pyStrip ((llm (rewriteMessages agent text)).data)) then text
     else pyStrip ((llm (rewriteMessages agent text)).data), 1)
  else (text, 0)

/-- Models `generate_reply`.  `key` is `os.getenv("OPENAI_API_KEY")`; `llm`
models the chat-completion capability as a function of the message list
(its answer stands for `resp.choices[0].message.content or ""`). -/
def generate_reply (key : Option String) (llm : List ChatMessage → String) (agent : Agent)
    (history : History) (topic : Option String) : Except String (String × History) :=
  if envKeyMissing key then Except.error NO_KEY_MSG
  else
    let is_first_turn := history.isEmpty
    let messages := buildMessages agent history topic
    let raw := pyStrip ((llm messages).data)
    let t1 := stripLeadingSpeakerLabel raw
    let t2 :=
      if is_first_turn && (agent.name == IRINA_NAME) then
        addIrinaPrefaceIfFirstTurn (enforceIrinaFirstPhrase t1)
      else t1
    let t3 := (rewriteWithoutLatin llm agent t2).1
    let reply : String := ⟨t3⟩
    Except.ok (reply, history ++ [(agent.name, reply)])

/-- The full constraint pipeline `generate_reply` applies to the raw generated
text on the expert persona's first turn: `.strip()` of the completion output,
prefix stripping, opening-phrase enforcement, preface injection,
foreign-alphabet sanitization. -/
def expertFirstTurnPipeline (llm : List ChatMessage → String) (agent : Agent) (raw : String) :
    List Char :=
  (rewriteWithoutLatin llm agent
    (addIrinaPrefaceIfFirstTurn (enforceIrinaFirstPhrase
      (stripLeadingSpeakerLabel (pyStrip raw.data))))).1

/-! ## tts_engine.py -/

/-- Decimal digits of `n`, most significant first (fuel-structured so that it
kernel-reduces; `natDigits` always supplies enough fuel). -/
def natDigitsAux : Nat → Nat → List Char
  | 0, _ => []
  | fuel + 1, n =>
    if n < 10 then [Nat.digitChar n]
    else natDigitsAux fuel (n / 10) ++ [Nat.digitChar (n % 10)]

/-- Decimal rendering of a natural number, as Python `str(n)` produces. -/
def natDigits (n : Nat) : List Char :=
  natDigitsAux (n + 1) n

/-- Models the Python format `f"{n:03d}"`: the decimal rendering left-padded
with zeros to a minimum width of 3 (wider numbers are not truncated). -/
def pad3 (n : Nat) : List Char :=
  List.replicate (3 - (natDigits n).length) '0' ++ natDigits n

/-- The characters removed by `_simplify_speaker_name`'s chain of
`replace` calls: space and the three bracket pairs. -/
def removedInSlug (c : Char) : Bool :=
  c == ' ' || c == '(' || c == ')' || c == '[' || c == ']' || c == '\x7b' || c == '\x7d'

/-- Models `_simplify_speaker_name`: lowercase, drop space/bracket characters,
fall back to `"speaker"` when nothing is left. -/
def simplifySpeakerName (speaker : String) : String :=
  let simplified := (speaker.data.map pyLowerChar).filter fun c => !removedInSlug c
  if simplified.isEmpty then ("speaker") else ⟨simplified⟩

/-- The artifact filename `f"{turn_index:03d}_{speaker_simplified}.mp3"`
built by `synthesize_speech`, as a character list. -/
def audioFilenameChars (turn_index : Nat) (speaker : String) : List Char :=
  pad3 turn_index ++ '_' :: ((simplifySpeakerName speaker).data ++ (".mp3").data)

/-- The error value standing for an exception raised by the text-to-speech
request itself (caught and logged by `run_dialog`). -/
def TTS_FAIL_MSG : String := "speech synthesis request failed"

/-- Models `synthesize_speech`.  `ttsOk text voice` models whether the
blocking text-to-speech request succeeds; the returned string is the artifact
path (`AUDIO_DIR / filename`). -/
def synthesize_speech (key : Option String) (ttsOk : String → String → Bool)
    (text speaker : String) (turn_index : Nat) (voice : String) : Except String String :=
  if envKeyMissing key then Except.error NO_KEY_MSG
  else
    let filename : String := ⟨audioFilenameChars turn_index speaker⟩
    if ttsOk text voice then Except.ok ("audio/" ++ filename)
    else Except.error TTS_FAIL_MSG

/-! ## dialog_engine.py: run_dialog -/

/-- `agent1` of `run_dialog` (the expert persona). -/
def agent1 : Agent :=
  ⟨IRINA_NAME,
   "Ты — учёная-исследовательница и научный популяризатор. Пиши спокойно, уверенно и чётко, как умная собеседница в подкасте. Объясняй сложные вещи человеческим языком и простыми примерами, не скатываясь в сюсюканье и не приукрашивая факты. Говори от первого лица в женском роде (я согласна, я считаю, я хотела бы, мне кажется) и избегай мужских форм вроде «я согласен». Твоя роль — эксперт: ты ведёшь разговор и даёшь объяснения и выводы. Вопросы используй редко и только по делу; не перекладывай экспертность на собеседника. Юмор лёгкий и интеллигентный, дозировано. ЖЁСТКО: никаких английских слов, латиницы, транслитерации."⟩

/-- `agent2` of `run_dialog` (the skeptic persona). -/
def agent2 : Agent :=
  ⟨ALEXEY_NAME,
   "Ты — скептичный учёный и собеседник, который задаёт неудобные, но уместные вопросы. Говори от первого лица в мужском роде и избегай женских форм. Твоя роль — уточнять и проверять: спрашивай про данные, метод, ограничения и альтернативные объяснения. Структура реплики: 1–2 предложения сомнения/уточнения + 1–2 прицельных вопроса. Не уходи в длинные монологи. Юмор лёгкий, чуть ехидный, но без грубости. ЖЁСТКО: никаких английских слов, латиницы, транслитерации."⟩

/-- Models `voice_map.get(agent.name, "alloy")`. -/
def voiceMapGet (name : String) : String :=
  if name == IRINA_NAME then "nova"
  else if name == ALEXEY_NAME then "alloy"
  else "alloy"

/-- The loop body of `run_dialog`: `n` turns remain, `i` is the 0-based index
of the next turn.  The synthesized-audio paths are collected as the model of
the artifacts written to disk; a synthesis failure is caught (`try/except`)
and only skips the artifact. -/
def runDialogLoop (key : Option String) (llm : List ChatMessage → String)
    (ttsOk : String → String → Bool) (topic : String) :
    Nat → Nat → History → List String → Except String (History × List String)
  | 0, _, history, audio => Except.ok (history, audio)
  | n + 1, i, history, audio =>
    match generate_reply key llm (if i % 2 == 0 then agent1 else agent2) history (some topic) with
    | Except.error e => Except.error e
    | Except.ok (reply, history2) =>
      runDialogLoop key llm ttsOk topic n (i + 1) history2
        (match synthesize_speech key ttsOk reply (if i % 2 == 0 then agent1 else agent2).name
            (i + 1) (voiceMapGet (if i % 2 == 0 then agent1 else agent2).name) with
         | Except.ok path => audio ++ [path]
         | Except.error _ => audio)

/-- Models `run_dialog`: alternate the two agents over `turns` turns,
threading the history through `generate_reply` and synthesizing audio for
each produced reply. -/
def run_dialog (key : Option String) (llm : List ChatMessage → String)
    (ttsOk : String → String → Bool) (topic : String) (turns : Nat) :
    Except String (History × List String) :=
  runDialogLoop key llm ttsOk topic turns 0 [] []

/-! ## video_engine.py -/

/-- Substring containment on character lists, modelling Python's `in` on
strings. -/
def containsSub (needle : List Char) : List Char → Bool
  | [] => needle.isEmpty
  | c :: t => needle.isPrefixOf (c :: t) || containsSub needle t

/-- Models `detect_speaker_from_filename`: lowercase the filename, then
first-match-wins substring tests, the expert first. -/
def detect_speaker_from_filename (filename : String) : String :=
  let lower := filename.data.map pyLowerChar
  if containsSub ("ирина".data) lower then "irina"
  else if containsSub ("алексей".data) lower then "alexey"
  else "unknown"

/-- Models `avatar_map.get(speaker_key)`: the per-identity avatar image path,
`none` for an unrecognized identity. -/
def avatarMapGet (key : String) : Option String :=
  if key == "irina" then some ("avatars/irina.jpg")
  else if key == "alexey" then some ("avatars/alexey.jpg")
  else none

/-- One element of the final render timeline, as emitted by `main` in
`video_engine.py`. -/
inductive Clip where
  | topicIntro : Clip
  | speakerIntro (key : String) : Clip
  | turnClip (key : String) (file : String) : Clip
deriving DecidableEq

/-- The `introduced` dictionary of `main`. -/
structure IntroState where
  irina : Bool
  alexey : Bool
deriving DecidableEq

/-- Dictionary lookup `introduced[key]`; only queried for the two known
identities (the value on other keys is irrelevant to the loop). -/
def introducedFor (st : IntroState) (key : String) : Bool :=
  if key == "irina" then st.irina
  else if key == "alexey" then st.alexey
  else true

/-- Setting `introduced[key] = True`. -/
def markIntroduced (st : IntroState) (key : String) : IntroState :=
  if key == "irina" then { st with irina := true }
  else if key == "alexey" then { st with alexey := true }
  else st

/-- The per-artifact loop of `main` in `video_engine.py`, over the sorted
artifact filename list.  `audioOk f` models whether reading the artifact's
duration succeeds (failure skips the file); `introOk key` models whether
building the speaker-introduction clip succeeds (failure aborts the whole
assembly, `none`); `clipOk f` models whether building the turn clip succeeds
(failure skips only that clip). -/
def processFiles (audioOk introOk clipOk : String → Bool) :
    List String → IntroState → List Clip → Option (List Clip)
  | [], _, clips => some clips
  | f :: rest, st, clips =>
    let key := detect_speaker_from_filename f
    match avatarMapGet key with
    | none => processFiles audioOk introOk clipOk rest st clips
    | some _ =>
      if !audioOk f then processFiles audioOk introOk clipOk rest st clips
      else if !introducedFor st key then
        if !introOk key then none
        else
          let st2 := markIntroduced st key
          let clips2 := clips ++ [Clip.speakerIntro key]
          let clips3 := if clipOk f then clips2 ++ [Clip.turnClip key f] else clips2
          processFiles audioOk introOk clipOk rest st2 clips3
      else
        let clips2 := if clipOk f then clips ++ [Clip.turnClip key f] else clips
        processFiles audioOk introOk clipOk rest st clips2

/-- Models `main` of `video_engine.py` from its guard checks to the clip list
handed to `concatenate_videoclips`: `none` means the run aborted (or produced
no video).  `files` is the sorted artifact listing; `topicOk` models whether
the topic-introduction clip could be built. -/
def assembleClips (audioDirExists avatarsOk topicOk : Bool)
    (audioOk introOk clipOk : String → Bool) (files : List String) :
    Option (List Clip) :=
  if !audioDirExists then none
  else if files.isEmpty then none
  else if !avatarsOk then none
  else if !topicOk then none
  else
    match processFiles audioOk introOk clipOk files ⟨false, false⟩ [Clip.topicIntro] with
    | none => none
    | some clips => if clips.isEmpty then none else some clips

/-! ## Predicates and sample inputs used by the claim statements -/

/-- Formalizes "the preface+phrase combination occurs as a prefix exactly
once": the text starts with the combination and the combination is not
immediately repeated after it. -/
def prefaceComboExactlyOnce (l : List Char) : Prop :=
  irinaCombo.isPrefixOf l = true ∧
  (irinaCombo ++ ' ' :: irinaCombo).isPrefixOf l = false

/-- A raw generated text that already is a correct expert first line. -/
def doubledRawSample : String :=
  "Добрый день. Да, спасибо. Давай начнём с самого простого. Отлично."

/-- An already-correct expert first line (starts with preface + phrase). -/
def correctLineSample : List Char :=
  irinaCombo ++ (" Отлично.").data

/-- Whether a clip is the speaker-introduction clip of identity `k`. -/
def isIntroOf (k : String) : Clip → Bool
  | Clip.speakerIntro k2 => k2 == k
  | _ => false

/-- Whether a clip is a turn clip of identity `k`. -/
def isTurnOf (k : String) : Clip → Bool
  | Clip.turnClip k2 _ => k2 == k
  | _ => false

/-- The clip list produced by the one-file sample assembly run. -/
def sampleClips : List Clip :=
  [Clip.topicIntro, Clip.speakerIntro ("irina"), Clip.turnClip ("irina") ("001_ирина.mp3")]

/-- No turn clip of identity `k` ever precedes a speaker-introduction clip of
`k` in the emitted sequence. -/
def noTurnBeforeIntro (k : String) (clips : List Clip) : Prop :=
  clips.Pairwise fun a b => ¬(isTurnOf k a = true ∧ isIntroOf k b = true)

/-- The loop invariant of the assembly pass: for every identity, if its
`introduced` flag is still false no clip of that identity has been emitted;
the number of introduction clips is bounded by its flag; and no turn clip
precedes an introduction clip. -/
def assemblyInv (st : IntroState) (clips : List Clip) : Prop :=
  ∀ k : String,
    (introducedFor st k = false → ∀ c ∈ clips, isIntroOf k c = false ∧ isTurnOf k c = false) ∧
    clips.countP (isIntroOf k) ≤ (if introducedFor st k then 1 else 0) ∧
    noTurnBeforeIntro k clips

/-! ## Helper lemmas about the Python string primitives -/

theorem pyLStrip_idem (l : List Char) : pyLStrip (pyLStrip l) = pyLStrip l :=
  List.dropWhile_idempotent wsp l

theorem pyRStrip_idem (l : List Char) : pyRStrip (pyRStrip l) = pyRStrip l :=
  List.rdropWhile_idempotent wsp l

theorem pyLStrip_cons_nonws {c : Char} (l : List Char) (h : wsp c = false) :
    pyLStrip (c :: l) = c :: l := by
  simp [pyLStrip, List.dropWhile_cons, h]

theorem wsp_head_false_of_lstrip_fixed {c : Char} {t : List Char}
    (h : pyLStrip (c :: t) = c :: t) : wsp c = false := by
  by_contra hc
  rw [Bool.not_eq_false] at hc
  rw [pyLStrip, List.dropWhile_cons, if_pos hc] at h
  have hle : (List.dropWhile wsp t).length ≤ t.length :=
    (List.dropWhile_suffix wsp).length_le
  have := congrArg List.length h
  simp at this
  omega

theorem lstrip_fixed_of_front {l₁ l₂ : List Char} (h : l₁ <+: l₂)
    (h2 : pyLStrip l₂ = l₂) : pyLStrip l₁ = l₁ := by
  cases l₁ with
  | nil => rfl
  | cons c t =>
    obtain ⟨s, rfl⟩ := h
    have hc : wsp c = false := wsp_head_false_of_lstrip_fixed (t := t ++ s) h2
    exact pyLStrip_cons_nonws t hc

theorem pyStrip_lstrip_fixed (l : List Char) : pyLStrip (pyStrip l) = pyStrip l := by
  have hp : pyStrip l <+: pyLStrip l := List.rdropWhile_prefix wsp (pyLStrip l)
  exact lstrip_fixed_of_front hp (pyLStrip_idem l)

theorem pyStrip_rstrip_fixed (l : List Char) : pyRStrip (pyStrip l) = pyStrip l := by
  unfold pyStrip
  exact pyRStrip_idem (pyLStrip l)

theorem pyStrip_idem (l : List Char) : pyStrip (pyStrip l) = pyStrip l :=
  calc pyStrip (pyStrip l) = pyRStrip (pyLStrip (pyStrip l)) := rfl
    _ = pyRStrip (pyStrip l) := by rw [pyStrip_lstrip_fixed]
    _ = pyStrip l := pyStrip_rstrip_fixed l

theorem pyStrip_pyLStrip (l : List Char) : pyStrip (pyLStrip l) = pyStrip l := by
  unfold pyStrip
  rw [pyLStrip_idem]

theorem mem_of_mem_pyLStrip {a : Char} {l : List Char} (h : a ∈ pyLStrip l) : a ∈ l :=
  (List.dropWhile_suffix wsp).subset h

theorem mem_of_mem_pyRStrip {a : Char} {l : List Char} (h : a ∈ pyRStrip l) : a ∈ l := by
  have hp := List.rdropWhile_prefix wsp l
  exact hp.subset h

theorem mem_of_mem_pyStrip {a : Char} {l : List Char} (h : a ∈ pyStrip l) : a ∈ l :=
  mem_of_mem_pyLStrip (mem_of_mem_pyRStrip h)

theorem hasLatin_false_of_subset {l₁ l₂ : List Char} (hsub : ∀ a ∈ l₁, a ∈ l₂)
    (h : hasLatin l₂ = false) : hasLatin l₁ = false := by
  simp only [hasLatin, List.any_eq_false] at h ⊢
  exact fun a ha => h a (hsub a ha)

/-! ## Helper lemmas about the speaker-label matcher -/

theorem matchLitCI_sfx {r : List Char} :
    ∀ {p l : List Char}, matchLitCI p l = some r → r <:+ l := by
  intro p
  induction p with
  | nil =>
    intro l h
    simp only [matchLitCI, Option.some.injEq] at h
    exact h ▸ List.suffix_refl r
  | cons c cs ih =>
    intro l h
    cases l with
    | nil => simp [matchLitCI] at h
    | cons x xs =>
      simp only [matchLitCI] at h
      by_cases hc : ciMatch c x = true
      · rw [if_pos hc] at h
        exact (ih h).trans (List.suffix_cons x xs)
      · rw [if_neg hc] at h
        cases h

theorem dropWhile_sfx (p : Char → Bool) (l : List Char) : l.dropWhile p <:+ l :=
  List.dropWhile_suffix p

theorem matchOptR_sfx {orig rest2 : List Char} (h : rest2 <:+ orig) :
    matchOptR orig rest2 <:+ orig := by
  match rest2 with
  | [] => exact List.suffix_refl _
  | c2 :: r2 =>
    simp only [matchOptR]
    by_cases h2 : ciMatch c2 'р' = true
    · rw [if_pos h2]
      exact ((dropWhile_sfx wsp r2).trans (List.suffix_cons c2 r2)).trans h
    · rw [if_neg h2]

theorem matchOptDr_sfx (l : List Char) : matchOptDr l <:+ l := by
  match l with
  | [] => exact List.suffix_refl _
  | c :: rest =>
    simp only [matchOptDr]
    by_cases hc : ciMatch c 'д' = true
    · rw [if_pos hc]
      refine matchOptR_sfx ?_
      by_cases hd : rest.take 1 = ['-']
      · rw [if_pos hd]
        exact (List.drop_suffix 1 rest).trans (List.suffix_cons c rest)
      · rw [if_neg hd]
        exact List.suffix_cons c rest
    · rw [if_neg hc]

theorem matchAlt2_sfx {p₁ p₂ l r : List Char} (h : matchAlt2 p₁ p₂ l = some r) : r <:+ l := by
  unfold matchAlt2 at h
  cases hm : matchLitCI p₁ l with
  | some r1 =>
    rw [hm] at h
    cases h
    exact matchLitCI_sfx hm
  | none =>
    rw [hm] at h
    exact matchLitCI_sfx h

theorem speakerLabelRemainder_sfx {l r : List Char}
    (h : speakerLabelRemainder l = some r) : r <:+ l := by
  unfold speakerLabelRemainder at h
  cases h1 : matchAlt2 (("ирина").data) (("алексей").data) (matchOptDr (l.dropWhile wsp)) with
  | none => rw [h1] at h; simp at h
  | some l3 =>
    rw [h1] at h
    simp only [] at h
    have s3 : l3 <:+ l := ((matchAlt2_sfx h1).trans (matchOptDr_sfx _)).trans (dropWhile_sfx wsp l)
    cases h2 : matchLitCI (("(").data) (l3.dropWhile wsp) with
    | none => rw [h2] at h; simp at h
    | some l5 =>
      rw [h2] at h
      simp only [] at h
      have s5 : l5 <:+ l := ((matchLitCI_sfx h2).trans (dropWhile_sfx wsp l3)).trans s3
      cases h3 : matchAlt2 (("учёный").data) (("скептик").data) l5 with
      | none => rw [h3] at h; simp at h
      | some l6 =>
        rw [h3] at h
        simp only [] at h
        have s6 : l6 <:+ l := (matchAlt2_sfx h3).trans s5
        cases h4 : matchLitCI ((")").data) l6 with
        | none => rw [h4] at h; simp at h
        | some l7 =>
          rw [h4] at h
          simp only [] at h
          have s7 : l7 <:+ l := (matchLitCI_sfx h4).trans s6
          cases h5 : matchLitCI ((":").data) (l7.dropWhile wsp) with
          | none => rw [h5] at h; simp at h
          | some l9 =>
            rw [h5] at h
            simp only [Option.some.injEq] at h
            rw [← h]
            exact ((dropWhile_sfx wsp l9).trans
              ((matchLitCI_sfx h5).trans (dropWhile_sfx wsp l7))).trans s7

theorem stripLabel_strip_fixed (reply : List Char) :
    pyStrip (stripLeadingSpeakerLabel reply) = stripLeadingSpeakerLabel reply := by
  unfold stripLeadingSpeakerLabel
  cases h : speakerLabelRemainder (pyLStrip reply) <;> simp [h, pyStrip_idem]

theorem stripLabel_subset (reply : List Char) :
    ∀ a ∈ stripLeadingSpeakerLabel reply, a ∈ reply := by
  intro a ha
  unfold stripLeadingSpeakerLabel at ha
  cases h : speakerLabelRemainder (pyLStrip reply) with
  | some r =>
    rw [h] at ha
    exact mem_of_mem_pyLStrip ((speakerLabelRemainder_sfx h).subset (mem_of_mem_pyStrip ha))
  | none =>
    rw [h] at ha
    exact mem_of_mem_pyLStrip (mem_of_mem_pyStrip ha)

/-! ## Shape lemmas for the enforcement steps -/

theorem lstrip_fixed_of_strip_fixed {s : List Char} (h : pyStrip s = s) :
    pyLStrip s = s := by
  conv_lhs => rw [← h]
  rw [pyStrip_lstrip_fixed, h]

theorem rstrip_fixed_of_strip_fixed {s : List Char} (h : pyStrip s = s) :
    pyRStrip s = s := by
  conv_lhs => rw [← h]
  rw [pyStrip_rstrip_fixed, h]

theorem hasLatin_append (l₁ l₂ : List Char) :
    hasLatin (l₁ ++ l₂) = (hasLatin l₁ || hasLatin l₂) := by
  simp [hasLatin, List.any_append]

theorem hasLatin_cons (c : Char) (l : List Char) :
    hasLatin (c :: l) = (isLatinChar c || hasLatin l) := by
  simp [hasLatin]

theorem isPrefixOf_append_self (l t : List Char) : l.isPrefixOf (l ++ t) = true := by
  rw [ List.isPrefixOf_iff_prefix]
  exact List.prefix_append l t

theorem pyStrip_append_fixed (pre s : List Char) (hpre : pyLStrip pre = pre)
    (hpre_ne : pre ≠ []) (hs : pyStrip s = s) (hs_ne : s ≠ []) :
    pyStrip (pre ++ s) = pre ++ s := by
  have h1 : pyLStrip (pre ++ s) = pre ++ s := by
    cases pre with
    | nil => exact absurd rfl hpre_ne
    | cons c t =>
      have hc : wsp c = false := wsp_head_false_of_lstrip_fixed hpre
      rw [List.cons_append]
      exact pyLStrip_cons_nonws _ hc
  have h2 : pyRStrip (pre ++ s) = pre ++ s := by
    rw [pyRStrip, List.rdropWhile_eq_self_iff]
    intro hl
    have hgl : (pre ++ s).getLast hl = s.getLast hs_ne := List.getLast_append' pre s hs_ne
    rw [hgl]
    have h3 : pyRStrip s = s := rstrip_fixed_of_strip_fixed hs
    rw [pyRStrip] at h3
    exact List.rdropWhile_eq_self_iff.mp h3 hs_ne
  rw [pyStrip, h1, h2]

theorem enforce_spec (s : List Char) (hfix : pyStrip s = s) (hlat : hasLatin s = false) :
    IRINA_FIRST_PHRASE.data.isPrefixOf (enforceIrinaFirstPhrase s) = true ∧
    pyStrip (enforceIrinaFirstPhrase s) = enforceIrinaFirstPhrase s ∧
    hasLatin (enforceIrinaFirstPhrase s) = false := by
  have hls : pyLStrip s = s := lstrip_fixed_of_strip_fixed hfix
  unfold enforceIrinaFirstPhrase
  rw [hls]
  by_cases hp : IRINA_FIRST_PHRASE.data.isPrefixOf s = true
  · rw [if_pos hp]
    exact ⟨hp, hfix, hlat⟩
  · rw [if_neg hp]
    rcases eq_or_ne s [] with rfl | hne
    · exact ⟨by decide, by decide, by decide⟩
    · have heq : pyStrip (IRINA_FIRST_PHRASE.data ++ ' ' :: s)
          = IRINA_FIRST_PHRASE.data ++ ' ' :: s := by
        have hassoc : IRINA_FIRST_PHRASE.data ++ ' ' :: s
            = (IRINA_FIRST_PHRASE.data ++ [' ']) ++ s := by simp
        rw [hassoc]
        exact pyStrip_append_fixed _ _ (by decide) (by decide) hfix hne
      rw [heq]
      refine ⟨isPrefixOf_append_self _ _, heq, ?_⟩
      rw [hasLatin_append, hasLatin_cons, hlat]
      decide

theorem addPreface_spec (s : List Char) (hfix : pyStrip s = s) (hlat : hasLatin s = false)
    (hF : IRINA_FIRST_PHRASE.data.isPrefixOf s = true) :
    irinaCombo.isPrefixOf (addIrinaPrefaceIfFirstTurn s) = true ∧
    hasLatin (addIrinaPrefaceIfFirstTurn s) = false := by
  have hls : pyLStrip s = s := lstrip_fixed_of_strip_fixed hfix
  obtain ⟨u, rfl⟩ : ∃ u, IRINA_FIRST_PHRASE.data ++ u = s := by
    rw [ List.isPrefixOf_iff_prefix] at hF
    exact hF
  unfold addIrinaPrefaceIfFirstTurn
  rw [hls]
  have hF2 : IRINA_FIRST_PHRASE.data.isPrefixOf (IRINA_FIRST_PHRASE.data ++ u) = true :=
    isPrefixOf_append_self _ _
  rw [hF2]
  have hcombo : irinaCombo.isPrefixOf (IRINA_FIRST_PHRASE.data ++ u) = false := by
    have e1 : irinaCombo = 'Д' :: 'о' :: irinaCombo.drop 2 := by decide
    have e2 : IRINA_FIRST_PHRASE.data
        = 'Д' :: 'а' :: (IRINA_FIRST_PHRASE.data.drop 2) := by decide
    rw [e1, e2, List.cons_append, List.cons_append]
    have hb : ('о' == 'а') = false := by decide
    simp [List.isPrefixOf, hb]
  rw [hcombo]
  have hne : IRINA_FIRST_PHRASE.data ++ u ≠ [] := by
    have : IRINA_FIRST_PHRASE.data ≠ [] := by decide
    simp [this]
  have heq : pyStrip (IRINA_PREFACE.data ++ ' ' :: (IRINA_FIRST_PHRASE.data ++ u))
      = IRINA_PREFACE.data ++ ' ' :: (IRINA_FIRST_PHRASE.data ++ u) := by
    have hassoc : IRINA_PREFACE.data ++ ' ' :: (IRINA_FIRST_PHRASE.data ++ u)
        = (IRINA_PREFACE.data ++ [' ']) ++ (IRINA_FIRST_PHRASE.data ++ u) := by simp
    rw [hassoc]
    exact pyStrip_append_fixed _ _ (by decide) (by decide) hfix hne
  have hshape : IRINA_PREFACE.data ++ ' ' :: (IRINA_FIRST_PHRASE.data ++ u)
      = irinaCombo ++ u := by
    simp [irinaCombo]
  rw [if_neg (show ¬((!true) = true) by decide), if_neg (show ¬(false = true) by decide)]
  rw [heq, hshape]
  constructor
  · exact isPrefixOf_append_self _ _
  · rw [← hshape, hasLatin_append, hasLatin_cons, hlat]
    decide

/-! ## Claim C1 -/

/-- C1, counterexample: on a raw generated text that already begins with the
preface-plus-phrase combination (and contains no Latin letter, so the
sanitization step is inert), the expert-first-turn pipeline prepends the
combination a second time, so its output does not start with the combination
exactly once. -/
theorem expertPipeline_combo_duplicated :
    ¬ prefaceComboExactlyOnce (expertFirstTurnPipeline (fun _ => "") agent1 doubledRawSample) := by
  unfold prefaceComboExactlyOnce
  decide

/-- C1, amended: for every raw generated text containing no Latin letter,
the full expert-first-turn constraint pipeline (prefix stripping, then
opening-phrase enforcement, then preface injection, then foreign-alphabet
sanitization) yields a text that starts with the fixed preface immediately
followed by the mandated opening phrase.  (The "exactly once" part of the
original claim is false — see the counterexample — and when the raw text
contains Latin letters the sanitization oracle may replace the text
entirely.) -/
theorem expertPipeline_starts_with_combo (llm : List ChatMessage → String) (agent : Agent)
    (raw : String) (hlat : hasLatin raw.data = false) :
    irinaCombo.isPrefixOf (expertFirstTurnPipeline llm agent raw) = true := by
  unfold expertFirstTurnPipeline
  have hfix0 : pyStrip (pyStrip raw.data) = pyStrip raw.data := pyStrip_idem raw.data
  have hlat0 : hasLatin (pyStrip raw.data) = false :=
    hasLatin_false_of_subset (fun a ha => mem_of_mem_pyStrip ha) hlat
  have hfix1 : pyStrip (stripLeadingSpeakerLabel (pyStrip raw.data))
      = stripLeadingSpeakerLabel (pyStrip raw.data) := stripLabel_strip_fixed _
  have hlat1 : hasLatin (stripLeadingSpeakerLabel (pyStrip raw.data)) = false :=
    hasLatin_false_of_subset (stripLabel_subset _) hlat0
  obtain ⟨hF, hfix2, hlat2⟩ := enforce_spec _ hfix1 hlat1
  obtain ⟨hcombo, hlat3⟩ := addPreface_spec _ hfix2 hlat2 hF
  unfold rewriteWithoutLatin
  rw [hlat3]
  simpa using hcombo

/-- C1, witness for the amended theorem at a concrete Latin-free raw text. -/
theorem expertPipeline_starts_with_combo_witness :
    irinaCombo.isPrefixOf (expertFirstTurnPipeline (fun _ => "") agent1 ("Раз")) = true :=
  expertPipeline_starts_with_combo _ _ _ (by decide)

/-! ## Claim C2 -/

/-- C2, counterexample: the opening-phrase-enforcement-then-preface-injection
step applied to an already-correct line (one starting with preface + phrase)
is not the identity: the enforcement step fails to recognize the preface and
prepends phrase and preface again. -/
theorem enforce_then_preface_not_idempotent :
    addIrinaPrefaceIfFirstTurn (enforceIrinaFirstPhrase correctLineSample)
      ≠ correctLineSample := by
  decide

/-- C2, amended: the preface-injection step alone is idempotent on
already-correct lines: any line starting with the preface immediately
followed by the opening phrase is returned unchanged by
`_add_irina_preface_if_first_turn` (the combined
enforcement-then-injection step is not idempotent, see the counterexample). -/
theorem addPreface_noop_on_correct_line (line : List Char)
    (h : irinaCombo.isPrefixOf line = true) :
    addIrinaPrefaceIfFirstTurn line = line := by
  obtain ⟨u, rfl⟩ : ∃ u, irinaCombo ++ u = line := by
    rw [ List.isPrefixOf_iff_prefix] at h
    exact h
  unfold addIrinaPrefaceIfFirstTurn
  have hls : pyLStrip (irinaCombo ++ u) = irinaCombo ++ u := by
    have e : irinaCombo = 'Д' :: irinaCombo.drop 1 := by decide
    rw [e, List.cons_append]
    exact pyLStrip_cons_nonws _ (by decide)
  rw [hls]
  have hF : IRINA_FIRST_PHRASE.data.isPrefixOf (irinaCombo ++ u) = false := by
    have e1 : IRINA_FIRST_PHRASE.data
        = 'Д' :: 'а' :: (IRINA_FIRST_PHRASE.data.drop 2) := by decide
    have e2 : irinaCombo = 'Д' :: 'о' :: irinaCombo.drop 2 := by decide
    rw [e1, e2, List.cons_append, List.cons_append]
    have hb : ('а' == 'о') = false := by decide
    simp [List.isPrefixOf, hb]
  rw [hF]
  simp

/-- C2, witness for the amended theorem at a concrete correct line. -/
theorem addPreface_noop_witness :
    addIrinaPrefaceIfFirstTurn (irinaCombo ++ (" Ладно.").data)
      = irinaCombo ++ (" Ладно.").data :=
  addPreface_noop_on_correct_line _ (by decide)

/-! ## Claim C3 -/

/-- C3, counterexample: prefix stripping alters a text that does not begin
with a speaker label, because the step ends with `.strip()`: surrounding
whitespace is removed. -/
theorem stripLabel_alters_unlabeled_text :
    stripLeadingSpeakerLabel (("привет ").data) ≠ ("привет ").data := by
  decide

/-- C3, amended: for every input whose whitespace-stripped form does not begin
with a recognized speaker self-label, the prefix-stripping step returns the
text unaltered apart from removing leading and trailing whitespace (it equals
`text.strip()`); in particular a text with no surrounding whitespace is
returned exactly. -/
theorem stripLabel_no_label_strips_whitespace_only (text : List Char)
    (h : speakerLabelRemainder (pyLStrip text) = none) :
    stripLeadingSpeakerLabel text = pyStrip text ∧
    (pyStrip text = text → stripLeadingSpeakerLabel text = text) := by
  have h1 : stripLeadingSpeakerLabel text = pyStrip text := by
    unfold stripLeadingSpeakerLabel
    rw [h]
    exact pyStrip_pyLStrip text
  exact ⟨h1, fun h2 => h1.trans h2⟩

/-- C3, witness for the amended theorem at a concrete unlabeled text. -/
theorem stripLabel_no_label_witness :
    stripLeadingSpeakerLabel (("привет ").data) = pyStrip (("привет ").data) :=
  (stripLabel_no_label_strips_whitespace_only _ (by decide)).1

/-! ## Claim C4 -/

/-- C4: the foreign-alphabet sanitization step issues at most one rewrite
request; its result either contains no Latin letter or is exactly the
original input; a Latin-free input is returned unchanged with no rewrite
request; and when the single rewrite still contains a Latin letter the
original input is returned (no second attempt, no error surfaced — the
function is total). -/
theorem rewrite_single_attempt (llm : List ChatMessage → String) (agent : Agent)
    (text : List Char) :
    (rewriteWithoutLatin llm agent text).2 ≤ 1 ∧
    (hasLatin (rewriteWithoutLatin llm agent text).1 = false ∨
      (rewriteWithoutLatin llm agent text).1 = text) ∧
    (hasLatin text = false → rewriteWithoutLatin llm agent text = (text, 0)) ∧
    (hasLatin (pyStrip ((llm (rewriteMessages agent text)).data)) = true →
      (rewriteWithoutLatin llm agent text).1 = text) := by
  unfold rewriteWithoutLatin
  by_cases ht : hasLatin text = true
  · rw [if_pos ht]
    by_cases hr : hasLatin (pyStrip ((llm (rewriteMessages agent text)).data)) = true
    · rw [if_pos hr]
      refine ⟨le_refl 1, Or.inr rfl, ?_, fun _ => rfl⟩
      intro h0
      rw [h0] at ht
      cases ht
    · rw [if_neg hr]
      rw [Bool.not_eq_true] at hr
      refine ⟨le_refl 1, Or.inl hr, ?_, ?_⟩
      · intro h0
        rw [h0] at ht
        cases ht
      · intro h
        rw [h] at hr
        cases hr
  · rw [if_neg ht]
    rw [Bool.not_eq_true] at ht
    exact ⟨Nat.zero_le 1, Or.inl ht, fun _ => rfl, fun _ => rfl⟩

/-- C4, witness: a concrete input containing a Latin letter whose single
rewrite still contains Latin letters, so the original is kept after exactly
one request. -/
theorem rewrite_single_attempt_witness :
    (rewriteWithoutLatin (fun _ => "abc") agent1 (("Раз q").data)).1 = ("Раз q").data :=
  (rewrite_single_attempt (fun _ => "abc") agent1 (("Раз q").data)).2.2.2 (by decide)

/-! ## Claim C8 -/

/-- C8: with no language-model credential configured (unset or empty), both
`generate_reply` and `synthesize_speech` fail with the same configuration
error; the result does not depend on the completion or text-to-speech oracle
(no external call is consulted), no turn is appended to any history, and a
whole dialog run of at least one turn fails with the same error. -/
theorem missing_key_config_error (key : Option String)
    (llm : List ChatMessage → String) (agent : Agent) (history : History)
    (topic : Option String) (ttsOk : String → String → Bool)
    (text speaker : String) (turn_index : Nat) (voice : String)
    (topic2 : String) (turns : Nat)
    (hk : envKeyMissing key = true) (ht : 1 ≤ turns) :
    generate_reply key llm agent history topic = Except.error NO_KEY_MSG ∧
    synthesize_speech key ttsOk text speaker turn_index voice = Except.error NO_KEY_MSG ∧
    run_dialog key llm ttsOk topic2 turns = Except.error NO_KEY_MSG := by
  refine ⟨?_, ?_, ?_⟩
  · unfold generate_reply
    rw [if_pos hk]
  · unfold synthesize_speech
    rw [if_pos hk]
  · obtain ⟨n, rfl⟩ : ∃ n, turns = n + 1 := ⟨turns - 1, by omega⟩
    unfold run_dialog runDialogLoop
    have hg : generate_reply key llm (if 0 % 2 == 0 then agent1 else agent2) [] (some topic2)
        = Except.error NO_KEY_MSG := by
      unfold generate_reply
      rw [if_pos hk]
    rw [hg]

/-- C8, witness with the credential unset and one dialog turn. -/
theorem missing_key_config_error_witness :
    generate_reply none (fun _ => "") agent1 [] none = Except.error NO_KEY_MSG ∧
    synthesize_speech none (fun _ _ => true) ("т") IRINA_NAME 1 ("nova")
      = Except.error NO_KEY_MSG ∧
    run_dialog none (fun _ => "") (fun _ _ => true) ("т") 1 = Except.error NO_KEY_MSG :=
  missing_key_config_error none (fun _ => "") agent1 [] none (fun _ _ => true)
    ("т") IRINA_NAME 1 ("nova") ("т") 1 (by decide) (by decide)

/-! ## Claim C9 -/

/-- C9: `generate_reply` does not mutate the caller's history: whenever it
succeeds, the returned history is a freshly built list equal to the input
history with exactly the one new turn appended at the end (the source copies
the list before appending, so the input object is observationally
unchanged). -/
theorem generate_reply_appends_one_turn (key : Option String)
    (llm : List ChatMessage → String) (agent : Agent) (history : History)
    (topic : Option String) (reply : String) (history2 : History)
    (h : generate_reply key llm agent history topic = Except.ok (reply, history2)) :
    history2 = history ++ [(agent.name, reply)] := by
  unfold generate_reply at h
  by_cases hk : envKeyMissing key = true
  · rw [if_pos hk] at h
    cases h
  · rw [if_neg hk] at h
    simp only [Except.ok.injEq, Prod.mk.injEq] at h
    obtain ⟨h1, h2⟩ := h
    rw [← h2, ← h1]

/-- C9, witness: a concrete successful call appends exactly one turn. -/
theorem generate_reply_appends_one_turn_witness :
    ([(("а" : String), ("б" : String)), (IRINA_NAME, ("Раз" : String))] : History)
      = [(("а" : String), ("б" : String))] ++ [(agent1.name, ("Раз" : String))] :=
  generate_reply_appends_one_turn (some ("k")) (fun _ => "Раз") agent1
    [(("а" : String), ("б" : String))] none ("Раз")
    [(("а" : String), ("б" : String)), (IRINA_NAME, ("Раз" : String))] (by rfl)

/-! ## Claim C10 -/

/-- C10: speaker inference from a filename is first-match-wins with the
expert checked first: when the lowercased filename contains the expert's
name substring the classification is the expert (even if the skeptic's name
is also present), and when neither name occurs the classification is
`"unknown"`. -/
theorem detect_speaker_first_match_wins (filename : String) :
    (containsSub (("ирина").data) (filename.data.map pyLowerChar) = true →
      detect_speaker_from_filename filename = "irina") ∧
    (containsSub (("ирина").data) (filename.data.map pyLowerChar) = false →
      containsSub (("алексей").data) (filename.data.map pyLowerChar) = true →
      detect_speaker_from_filename filename = "alexey") ∧
    (containsSub (("ирина").data) (filename.data.map pyLowerChar) = false →
      containsSub (("алексей").data) (filename.data.map pyLowerChar) = false →
      detect_speaker_from_filename filename = "unknown") := by
  unfold detect_speaker_from_filename
  refine ⟨fun h => ?_, fun h1 h2 => ?_, fun h1 h2 => ?_⟩
  · rw [if_pos h]
  · rw [if_neg (by simp [h1]), if_pos h2]
  · rw [if_neg (by simp [h1]), if_neg (by simp [h2])]

/-- C10, witness: a filename containing both name substrings is classified
as the expert; one containing neither is unknown. -/
theorem detect_speaker_first_match_wins_witness :
    detect_speaker_from_filename ("003_ирина_алексей.mp3") = "irina" ∧
    detect_speaker_from_filename ("004_интро.mp3") = "unknown" :=
  ⟨(detect_speaker_first_match_wins ("003_ирина_алексей.mp3")).1 (by decide),
   (detect_speaker_first_match_wins ("004_интро.mp3")).2.2 (by decide) (by decide)⟩

/-! ## Decimal-digit lemmas for the filename format -/

theorem natDigitsAux_fuel (fuel1 : Nat) :
    ∀ (fuel2 n : Nat), n < fuel1 → n < fuel2 → natDigitsAux fuel1 n = natDigitsAux fuel2 n := by
  induction fuel1 with
  | zero => intro fuel2 n h1 _; omega
  | succ f ih =>
    intro fuel2 n h1 h2
    cases fuel2 with
    | zero => omega
    | succ g =>
      simp only [natDigitsAux]
      by_cases h : n < 10
      · rw [if_pos h, if_pos h]
      · rw [if_neg h, if_neg h]
        have hrec : natDigitsAux f (n / 10) = natDigitsAux g (n / 10) :=
          ih g (n / 10) (by omega) (by omega)
        rw [hrec]

theorem natDigits_lt10 {n : Nat} (h : n < 10) : natDigits n = [Nat.digitChar n] := by
  unfold natDigits natDigitsAux
  rw [if_pos h]

theorem natDigits_ge10 {n : Nat} (h : 10 ≤ n) :
    natDigits n = natDigits (n / 10) ++ [Nat.digitChar (n % 10)] := by
  unfold natDigits
  conv_lhs => rw [natDigitsAux]
  rw [if_neg (by omega)]
  rw [natDigitsAux_fuel n (n / 10 + 1) (n / 10) (by omega) (by omega)]

theorem pad3_eq_digits {n : Nat} (h : n ≤ 999) :
    pad3 n = [Nat.digitChar (n / 100), Nat.digitChar (n / 10 % 10), Nat.digitChar (n % 10)] := by
  unfold pad3
  rcases Nat.lt_or_ge n 10 with h1 | h1
  · rw [natDigits_lt10 h1]
    have e1 : n / 100 = 0 := by omega
    have e2 : n / 10 % 10 = 0 := by omega
    have e3 : n % 10 = n := by omega
    rw [e1, e2, e3]
    rfl
  · rcases Nat.lt_or_ge n 100 with h2 | h2
    · rw [natDigits_ge10 h1, natDigits_lt10 (show n / 10 < 10 by omega)]
      have e1 : n / 100 = 0 := by omega
      have e2 : n / 10 % 10 = n / 10 := by omega
      rw [e1, e2]
      rfl
    · rw [natDigits_ge10 h1, natDigits_ge10 (show 10 ≤ n / 10 by omega),
        natDigits_lt10 (show n / 10 / 10 < 10 by omega)]
      have e1 : n / 10 / 10 = n / 100 := by omega
      rw [e1]
      rfl

theorem digitChar_mono : ∀ a < 10, ∀ b < 10, a < b → Nat.digitChar a < Nat.digitChar b := by
  decide

/-! ## Claim C6 -/

/-- C6, counterexample: the format `{turn_index:03d}` pads to a minimum of
three digits but does not truncate, so at turn 1000 the filename `1000_...`
sorts strictly before turn 999's `999_...`: lexicographic order stops
matching turn order beyond turn 999, refuting the claim for every N ≥ 1. -/
theorem audioFilename_order_fails_at_1000 :
    ¬ (audioFilenameChars 999 IRINA_NAME < audioFilenameChars 1000 IRINA_NAME) ∧
    audioFilenameChars 1000 IRINA_NAME < audioFilenameChars 999 IRINA_NAME := by
  constructor <;> decide

/-- C6, amended: for all turns `j < k` with `k ≤ 999`, the artifact filename
of turn `j` is lexicographically strictly smaller than that of turn `k`
(whatever the two speakers are), so sorting the filenames of a run of at
most 999 turns reproduces turn order; moreover a successful synthesis call
for turn `j` persists its artifact exactly under that filename
(zero-padded 3-digit sequence number, underscore, normalized speaker slug,
`.mp3`). -/
theorem audioFilename_sorted (j k : Nat) (s1 s2 : String)
    (key : Option String) (ttsOk : String → String → Bool) (text voice : String)
    (h1 : 1 ≤ j) (hjk : j < k) (hk : k ≤ 999)
    (hkey : envKeyMissing key = false) (htts : ttsOk text voice = true) :
    synthesize_speech key ttsOk text s1 j voice
      = Except.ok (("audio/" : String) ++ (⟨audioFilenameChars j s1⟩ : String)) ∧
    audioFilenameChars j s1 < audioFilenameChars k s2 := by
  constructor
  · unfold synthesize_speech
    rw [if_neg (by simp [hkey]), if_pos htts]
  · unfold audioFilenameChars
    rw [pad3_eq_digits (show j ≤ 999 by omega), pad3_eq_digits hk]
    have hj100 : j / 100 < 10 := by omega
    have hk100 : k / 100 < 10 := by omega
    have hj10 : j / 10 % 10 < 10 := by omega
    have hk10 : k / 10 % 10 < 10 := by omega
    have hj1 : j % 10 < 10 := by omega
    have hk1 : k % 10 < 10 := by omega
    rcases Nat.lt_trichotomy (j / 100) (k / 100) with hc | hc | hc
    · exact List.Lex.rel (digitChar_mono _ hj100 _ hk100 hc)
    · rw [hc]
      apply List.Lex.cons
      rcases Nat.lt_trichotomy (j / 10 % 10) (k / 10 % 10) with hd | hd | hd
      · exact List.Lex.rel (digitChar_mono _ hj10 _ hk10 hd)
      · rw [hd]
        apply List.Lex.cons
        have he : j % 10 < k % 10 := by omega
        exact List.Lex.rel (digitChar_mono _ hj1 _ hk1 he)
      · omega
    · omega

/-- C6, witness for the amended theorem at turns 1 and 2. -/
theorem audioFilename_sorted_witness :
    synthesize_speech (some ("k")) (fun _ _ => true) ("т") IRINA_NAME 1 ("nova")
      = Except.ok (("audio/" : String) ++ (⟨audioFilenameChars 1 IRINA_NAME⟩ : String)) ∧
    audioFilenameChars 1 IRINA_NAME < audioFilenameChars 2 ALEXEY_NAME :=
  audioFilename_sorted 1 2 IRINA_NAME ALEXEY_NAME (some ("k")) (fun _ _ => true)
    ("т") ("nova") (by decide) (by decide) (by decide) (by decide) (by decide)

/-! ## Dialog-loop lemmas -/

theorem generate_reply_ok_shape (key : Option String) (llm : List ChatMessage → String)
    (agent : Agent) (history : History) (topic : Option String)
    (hk : envKeyMissing key = false) :
    ∃ r : String, generate_reply key llm agent history topic
      = Except.ok (r, history ++ [(agent.name, r)]) := by
  unfold generate_reply
  rw [if_neg (by simp [hk])]
  exact ⟨_, rfl⟩

theorem runDialogLoop_spec (key : Option String) (llm : List ChatMessage → String)
    (ttsOk : String → String → Bool) (topic : String) (hk : envKeyMissing key = false) :
    ∀ (n i : Nat) (history : History) (audio : List String),
      ∃ (ext : History) (audio2 : List String),
        runDialogLoop key llm ttsOk topic n i history audio
          = Except.ok (history ++ ext, audio2) ∧
        ext.length = n ∧
        ∀ j (hj : j < ext.length),
          (ext.get ⟨j, hj⟩).1 = if (i + j) % 2 = 0 then IRINA_NAME else ALEXEY_NAME := by
  intro n
  induction n with
  | zero =>
    intro i history audio
    exact ⟨[], audio, by simp [runDialogLoop], rfl, fun j hj => absurd hj (by simp)⟩
  | succ m ih =>
    intro i history audio
    obtain ⟨r, hr⟩ := generate_reply_ok_shape key llm
      (if i % 2 == 0 then agent1 else agent2) history (some topic) hk
    obtain ⟨ext, audio2, hloop, hlen, hspk⟩ := ih (i + 1)
      (history ++ [((if i % 2 == 0 then agent1 else agent2).name, r)])
      (match synthesize_speech key ttsOk r (if i % 2 == 0 then agent1 else agent2).name
          (i + 1) (voiceMapGet (if i % 2 == 0 then agent1 else agent2).name) with
        | Except.ok path => audio ++ [path]
        | Except.error _ => audio)
    refine ⟨((if i % 2 == 0 then agent1 else agent2).name, r) :: ext, audio2, ?_, ?_, ?_⟩
    · simp only [runDialogLoop]
      simp only [hr]
      rw [hloop]
      simp
    · simp [hlen]
    · intro j hj
      cases j with
      | zero =>
        by_cases hpar : i % 2 = 0
        · have hb : (i % 2 == 0) = true := by simp [hpar]
          simp [hb, hpar, agent1, IRINA_NAME]
        · have hb : (i % 2 == 0) = false := by simp [hpar]
          simp [hb, hpar, agent2, ALEXEY_NAME]
      | succ j' =>
        simp only [List.get]
        have hj' : j' < ext.length := by simpa using hj
        have := hspk j' hj'
        have harith : i + 1 + j' = i + (j' + 1) := by omega
        rw [harith] at this
        exact this

theorem runDialogLoop_history_indep (key : Option String) (llm : List ChatMessage → String)
    (topic : String) :
    ∀ (n i : Nat) (history : History) (ttsOk1 ttsOk2 : String → String → Bool)
      (audio1 audio2 : List String),
      (runDialogLoop key llm ttsOk1 topic n i history audio1).map Prod.fst
        = (runDialogLoop key llm ttsOk2 topic n i history audio2).map Prod.fst := by
  intro n
  induction n with
  | zero => intros; rfl
  | succ m ih =>
    intro i history t1 t2 a1 a2
    simp only [runDialogLoop]
    cases hg : generate_reply key llm (if i % 2 == 0 then agent1 else agent2) history
        (some topic) with
    | error e => rfl
    | ok pr =>
      obtain ⟨r, h2⟩ := pr
      exact ih (i + 1) h2 t1 t2 _ _

/-! ## Claim C5 -/

/-- C5: with a configured credential, for every topic and turn count the
dialog run succeeds and produces a history of exactly that many turns whose
speakers strictly alternate between the two agents, the expert on the
odd-numbered (1-based, here even 0-based) turns; and the history does not
depend on the success or failure of any speech-synthesis call — any other
synthesis oracle yields the identical history (only the collected audio
artifacts differ), so a failed synthesis still leaves that turn's text in
the history and generation continues. -/
theorem run_dialog_history_spec (key : Option String) (llm : List ChatMessage → String)
    (ttsOk : String → String → Bool) (topic : String) (turns : Nat)
    (hk : envKeyMissing key = false) :
    ∃ (history : History) (audio : List String),
      run_dialog key llm ttsOk topic turns = Except.ok (history, audio) ∧
      history.length = turns ∧
      (∀ j (hj : j < history.length),
        (history.get ⟨j, hj⟩).1 = if j % 2 = 0 then IRINA_NAME else ALEXEY_NAME) ∧
      ∀ ttsOk2, ∃ audio2,
        run_dialog key llm ttsOk2 topic turns = Except.ok (history, audio2) := by
  obtain ⟨ext, audio, hloop, hlen, hspk⟩ := runDialogLoop_spec key llm ttsOk topic hk turns 0 [] []
  refine ⟨ext, audio, ?_, hlen, ?_, ?_⟩
  · unfold run_dialog
    rw [hloop]
    simp
  · intro j hj
    have := hspk j hj
    simpa using this
  · intro tts2
    obtain ⟨ext2, audio2, hloop2, _, _⟩ := runDialogLoop_spec key llm tts2 topic hk turns 0 [] []
    have hind := runDialogLoop_history_indep key llm topic turns 0 [] ttsOk tts2 [] []
    rw [hloop, hloop2] at hind
    simp [Except.map] at hind
    refine ⟨audio2, ?_⟩
    unfold run_dialog
    rw [hloop2]
    simp [hind]

/-- C5, witness: a concrete two-turn run with the credential set. -/
theorem run_dialog_history_spec_witness :
    ∃ (history : History) (audio : List String),
      run_dialog (some ("k")) (fun _ => "Раз") (fun _ _ => true) ("т") 2
        = Except.ok (history, audio) ∧
      history.length = 2 ∧
      (∀ j (hj : j < history.length),
        (history.get ⟨j, hj⟩).1 = if j % 2 = 0 then IRINA_NAME else ALEXEY_NAME) ∧
      ∀ ttsOk2, ∃ audio2,
        run_dialog (some ("k")) (fun _ => "Раз") ttsOk2 ("т") 2
          = Except.ok (history, audio2) :=
  run_dialog_history_spec (some ("k")) (fun _ => "Раз") (fun _ _ => true) ("т") 2 (by decide)

/-! ## Assembly-invariant lemmas -/

theorem introducedFor_mark_self (st : IntroState) (key : String) :
    introducedFor (markIntroduced st key) key = true := by
  unfold introducedFor markIntroduced
  by_cases h1 : key = "irina"
  · simp [h1]
  · by_cases h2 : key = "alexey" <;> simp [h1, h2]

theorem introducedFor_mark_other (st : IntroState) (key k : String) (h : k ≠ key) :
    introducedFor (markIntroduced st key) k = introducedFor st k := by
  unfold introducedFor markIntroduced
  by_cases h1 : key = "irina" <;> by_cases h3 : k = "irina" <;>
    by_cases h2 : key = "alexey" <;> by_cases h4 : k = "alexey" <;>
      simp_all

theorem assemblyInv_init : assemblyInv ⟨false, false⟩ [Clip.topicIntro] := by
  intro k
  refine ⟨?_, ?_, ?_⟩
  · intro _ c hc
    simp at hc
    subst hc
    exact ⟨rfl, rfl⟩
  · have h0 : List.countP (isIntroOf k) [Clip.topicIntro] = 0 := by
      simp [List.countP_cons, isIntroOf]
    rw [h0]
    split <;> omega
  · exact List.pairwise_singleton _ _

theorem assemblyInv_append_turn (st : IntroState) (clips : List Clip) (key f : String)
    (hflag : introducedFor st key = true) (hinv : assemblyInv st clips) :
    assemblyInv st (clips ++ [Clip.turnClip key f]) := by
  intro k
  obtain ⟨hA, hB, hC⟩ := hinv k
  refine ⟨?_, ?_, ?_⟩
  · intro hf c hc
    rcases List.mem_append.mp hc with hc | hc
    · exact hA hf c hc
    · simp at hc
      subst hc
      refine ⟨rfl, ?_⟩
      by_cases hkk : key = k
      · subst hkk
        rw [hflag] at hf
        cases hf
      · simp [isTurnOf, hkk]
  · rw [List.countP_append]
    have h0 : List.countP (isIntroOf k) [Clip.turnClip key f] = 0 := by
      simp [List.countP_cons, isIntroOf]
    rw [h0, Nat.add_zero]
    exact hB
  · unfold noTurnBeforeIntro at hC ⊢
    rw [List.pairwise_append]
    refine ⟨hC, List.pairwise_singleton _ _, ?_⟩
    intro a _ b hb
    simp at hb
    subst hb
    rintro ⟨_, hIntro⟩
    simp [isIntroOf] at hIntro

theorem assemblyInv_append_intro (st : IntroState) (clips : List Clip) (key : String)
    (hflag : introducedFor st key = false) (hinv : assemblyInv st clips) :
    assemblyInv (markIntroduced st key) (clips ++ [Clip.speakerIntro key]) := by
  intro k
  obtain ⟨hA, hB, hC⟩ := hinv k
  by_cases hkk : k = key
  · subst hkk
    refine ⟨?_, ?_, ?_⟩
    · intro hf
      rw [introducedFor_mark_self] at hf
      cases hf
    · rw [List.countP_append, introducedFor_mark_self]
      have h0 : List.countP (isIntroOf k) clips = 0 := by
        rw [List.countP_eq_zero]
        intro c hc
        simp [(hA hflag c hc).1]
      have h1 : List.countP (isIntroOf k) [Clip.speakerIntro k] = 1 := by
        simp [List.countP_cons, isIntroOf]
      rw [h0, h1]
      simp
    · unfold noTurnBeforeIntro at hC ⊢
      rw [List.pairwise_append]
      refine ⟨hC, List.pairwise_singleton _ _, ?_⟩
      intro a ha b hb
      rintro ⟨hTurn, _⟩
      have := (hA hflag a ha).2
      rw [this] at hTurn
      cases hTurn
  · have hke : (key == k) = false := beq_eq_false_iff_ne.mpr (Ne.symm hkk)
    refine ⟨?_, ?_, ?_⟩
    · intro hf c hc
      rw [introducedFor_mark_other st key k hkk] at hf
      rcases List.mem_append.mp hc with hc | hc
      · exact hA hf c hc
      · simp at hc
        subst hc
        exact ⟨by simp [isIntroOf, hke], rfl⟩
    · rw [List.countP_append, introducedFor_mark_other st key k hkk]
      have h0 : List.countP (isIntroOf k) [Clip.speakerIntro key] = 0 := by
        simp [List.countP_cons, isIntroOf, hke]
      rw [h0, Nat.add_zero]
      exact hB
    · unfold noTurnBeforeIntro at hC ⊢
      rw [List.pairwise_append]
      refine ⟨hC, List.pairwise_singleton _ _, ?_⟩
      intro a _ b hb
      simp at hb
      subst hb
      rintro ⟨_, hIntro⟩
      simp [isIntroOf, hke] at hIntro

theorem processFiles_inv (audioOk introOk clipOk : String → Bool) :
    ∀ (files : List String) (st : IntroState) (clips : List Clip),
      assemblyInv st clips →
      ∀ out, processFiles audioOk introOk clipOk files st clips = some out →
        ∃ st2, assemblyInv st2 out := by
  intro files
  induction files with
  | nil =>
    intro st clips hinv out hout
    simp only [processFiles, Option.some.injEq] at hout
    exact ⟨st, hout ▸ hinv⟩
  | cons f rest ih =>
    intro st clips hinv out hout
    simp only [processFiles] at hout
    cases hav : avatarMapGet (detect_speaker_from_filename f) with
    | none =>
      rw [hav] at hout
      exact ih st clips hinv out hout
    | some av =>
      rw [hav] at hout
      simp only [] at hout
      by_cases haud : (!audioOk f) = true
      · rw [if_pos haud] at hout
        exact ih st clips hinv out hout
      · rw [if_neg haud] at hout
        by_cases hintro : (!introducedFor st (detect_speaker_from_filename f)) = true
        · rw [if_pos hintro] at hout
          by_cases hok : (!introOk (detect_speaker_from_filename f)) = true
          · rw [if_pos hok] at hout
            cases hout
          · rw [if_neg hok] at hout
            have hflag : introducedFor st (detect_speaker_from_filename f) = false := by
              simpa using hintro
            have hinv2 := assemblyInv_append_intro st clips _ hflag hinv
            by_cases hclip : clipOk f = true
            · rw [if_pos hclip] at hout
              have hflag2 : introducedFor (markIntroduced st (detect_speaker_from_filename f))
                  (detect_speaker_from_filename f) = true := introducedFor_mark_self _ _
              have hinv3 := assemblyInv_append_turn _ _ _ f hflag2 hinv2
              exact ih _ _ hinv3 out hout
            · rw [if_neg hclip] at hout
              exact ih _ _ hinv2 out hout
        · rw [if_neg hintro] at hout
          have hflag : introducedFor st (detect_speaker_from_filename f) = true := by
            simpa using hintro
          by_cases hclip : clipOk f = true
          · rw [if_pos hclip] at hout
            have hinv2 := assemblyInv_append_turn st clips _ f hflag hinv
            exact ih _ _ hinv2 out hout
          · rw [if_neg hclip] at hout
            exact ih st clips hinv out hout

/-! ## Claim C7 -/

/-- C7: in every completed assembly run, each speaker identity receives at
most one speaker-introduction clip in the emitted clip sequence, and any
emitted introduction clip for an identity appears strictly before every turn
clip of that identity (in particular before its first). -/
theorem assembleClips_intro_once_before_turn
    (audioDirExists avatarsOk topicOk : Bool) (audioOk introOk clipOk : String → Bool)
    (files : List String) (clips : List Clip)
    (h : assembleClips audioDirExists avatarsOk topicOk audioOk introOk clipOk files
      = some clips) :
    ∀ k : String,
      clips.countP (isIntroOf k) ≤ 1 ∧
      ∀ (i j : Nat) (hi : i < clips.length) (hj : j < clips.length),
        clips.get ⟨i, hi⟩ = Clip.speakerIntro k →
        isTurnOf k (clips.get ⟨j, hj⟩) = true → i < j := by
  unfold assembleClips at h
  by_cases h1 : (!audioDirExists) = true
  · rw [if_pos h1] at h
    cases h
  · rw [if_neg h1] at h
    by_cases h2 : files.isEmpty = true
    · rw [if_pos h2] at h
      cases h
    · rw [if_neg h2] at h
      by_cases h3 : (!avatarsOk) = true
      · rw [if_pos h3] at h
        cases h
      · rw [if_neg h3] at h
        by_cases h4 : (!topicOk) = true
        · rw [if_pos h4] at h
          cases h
        · rw [if_neg h4] at h
          cases hp : processFiles audioOk introOk clipOk files ⟨false, false⟩
              [Clip.topicIntro] with
          | none =>
            rw [hp] at h
            cases h
          | some clips0 =>
            rw [hp] at h
            simp only [] at h
            by_cases h5 : clips0.isEmpty = true
            · rw [if_pos h5] at h
              cases h
            · rw [if_neg h5] at h
              simp only [Option.some.injEq] at h
              subst h
              obtain ⟨st2, hinv⟩ := processFiles_inv audioOk introOk clipOk files
                ⟨false, false⟩ [Clip.topicIntro] assemblyInv_init clips0 hp
              intro k
              obtain ⟨_, hB, hC⟩ := hinv k
              constructor
              · refine le_trans hB ?_
                split <;> omega
              · intro i j hi hj hIntro hTurn
                unfold noTurnBeforeIntro at hC
                rw [List.pairwise_iff_getElem] at hC
                rcases Nat.lt_trichotomy i j with hlt | heq | hgt
                · exact hlt
                · exfalso
                  subst heq
                  rw [List.get_eq_getElem] at hIntro hTurn
                  rw [hIntro] at hTurn
                  simp [isTurnOf] at hTurn
                · exfalso
                  rw [List.get_eq_getElem] at hIntro hTurn
                  exact hC j i hj hi hgt ⟨hTurn, by rw [hIntro]; simp [isIntroOf]⟩

/-- C7, witness: a one-artifact assembly run emits exactly one introduction
for the expert, before the turn clip. -/
theorem assembleClips_intro_once_witness :
    sampleClips.countP (isIntroOf ("irina")) ≤ 1 :=
  (assembleClips_intro_once_before_turn true true true (fun _ => true) (fun _ => true)
    (fun _ => true) [("001_ирина.mp3")] sampleClips (by decide) ("irina")).1

end AvatarStream
